import Mathlib

/-!
Shallow embedding of the workout-app backend (Express + Prisma + PostgreSQL).

Entities live in five tables; identifiers are opaque unique strings generated
by the database (cuid).  We model identifiers as natural numbers drawn from a
freshness counter `DB.nextId`, strings as `List Char`, and each route handler
as a pure function `DB → Resp α × DB` (the handler's HTTP response paired with
the database state after the request).

Sources embedded here:
  * backend/src/routes/plans.ts   (days / sections / exercises routes)
  * backend/src/index.ts          (plans routes)
  * backend/src/middleware/auth.ts (requireAuth)
  * frontend ExerciseFormScreen.tsx (validateTime)
  * prisma migration: Day.planId, Section.dayId, Exercise.sectionId all have
    ON DELETE CASCADE foreign keys.
-/

namespace WorkoutApp

/-- Database identifiers (cuid strings in the source) are modelled as naturals
drawn from a freshness counter. -/
abbrev Id := Nat

/-- JavaScript strings are modelled as lists of characters. -/
abbrev Str := List Char

/-! ### JavaScript string primitives used by the routes -/

/-- Drop leading whitespace (left half of JavaScript `String.prototype.trim`). -/
def trimL (s : Str) : Str := s.dropWhile Char.isWhitespace

/-- Drop trailing whitespace (right half of JavaScript `String.prototype.trim`). -/
def trimR (s : Str) : Str := (s.reverse.dropWhile Char.isWhitespace).reverse

/-- JavaScript `s.trim()`: drop whitespace from both ends. -/
def trim (s : Str) : Str := trimR (trimL s)

/-- JavaScript truthiness of `name?.trim()`-style guards: a missing string or a
string that trims to empty is blank. -/
def isBlank (s : Option Str) : Bool :=
  match s with
  | none => true
  | some s => trim s = []

/-- The decimal digit character for `d < 10` (template-literal rendering). -/
def digitChar (d : Nat) : Char := Char.ofNat (48 + d)

/-- Decimal digit rendering, structurally recursive on a fuel bound so that
it reduces definitionally; `fuel` is always at least the digit count. -/
def natCharsAux : Nat → Nat → Str
  | 0, _ => []
  | fuel + 1, n =>
    if n < 10 then [digitChar n]
    else natCharsAux fuel (n / 10) ++ [digitChar (n % 10)]

/-- Decimal rendering of a natural number, as produced by a JavaScript template
literal such as `Day 3`.  `n + 1` units of fuel always cover all digits. -/
def natChars (n : Nat) : Str := natCharsAux (n + 1) n

/-- The default day name `"Day " + n` from the day-creation route. -/
def dayLabel (n : Nat) : Str := "Day ".toList ++ natChars n

/-! ### Data model (prisma schema) -/

/-- Closed enumeration of section types. -/
inductive SectionType where
  | warmup
  | workout
  | stretch
deriving DecidableEq, Repr

/-- Exercise mode: repetition-based or time-based. -/
inductive Mode where
  | reps
  | time
deriving DecidableEq, Repr

/-- Unit for time-based exercises. -/
inductive TimeUnit where
  | sec
  | min
  | hour
deriving DecidableEq, Repr

/-- A Plan row: owned directly by a user. -/
structure Plan where
  id : Id
  userId : Id
  title : Str
deriving DecidableEq, Repr

/-- A Day row: child of a Plan, carrying its creation-assigned `dayOrder`. -/
structure Day where
  id : Id
  planId : Id
  name : Str
  dayOrder : Nat
deriving DecidableEq, Repr

/-- A Section row: child of a Day. -/
structure Section where
  id : Id
  dayId : Id
  type : SectionType
  sectionOrder : Nat
deriving DecidableEq, Repr

/-- An Exercise row: child of a Section.  The reps-group (`sets`, `reps`) and
the time-group (`timeValue`, `timeUnit`) are nullable columns. -/
structure Exercise where
  id : Id
  sectionId : Id
  name : Str
  mode : Mode
  sets : Option Nat
  reps : Option Str
  timeValue : Option Nat
  timeUnit : Option TimeUnit
  exerciseOrder : Nat
deriving DecidableEq, Repr

/-- The persistent store: the four entity tables reachable from a user (the
User table itself is outside every claim; user ids are opaque inputs), plus
the id-freshness counter standing for cuid generation. -/
structure DB where
  plans : List Plan
  days : List Day
  sections : List Section
  exercises : List Exercise
  nextId : Id
deriving DecidableEq, Repr

/-- The empty store. -/
def DB.empty : DB := ⟨[], [], [], [], 0⟩

/-- An HTTP response: `ok status payload` or `err status message`. -/
inductive Resp (α : Type) where
  | ok : Nat → α → Resp α
  | err : Nat → Str → Resp α
deriving DecidableEq, Repr

/-- Whether a response is a success response. -/
def Resp.isOk {α : Type} : Resp α → Bool
  | .ok _ _ => true
  | .err _ _ => false

/-! ### Ownership helpers (plans.ts lines 23-55, index.ts lines 203-235)

`prisma.X.findFirst({ where: ... })` with a relation filter is denoted by a
`List.find?` whose predicate follows the foreign key to the (unique) parent
row. -/

/-- `assertPlanOwned` (plans.ts): true iff a plan with this id exists and
belongs to the user. -/
def assertPlanOwned (db : DB) (planId userId : Id) : Bool :=
  (db.plans.find? (fun p => p.id == planId && p.userId == userId)).isSome

/-- The user reachable from a day by walking `Day.planId → Plan.userId`. -/
def dayOwnerOf (db : DB) (d : Day) : Option Id :=
  (db.plans.find? (fun p => p.id == d.planId)).map Plan.userId

/-- `getDayIfOwned` (plans.ts): the day with this id, only if its parent plan
belongs to the user. -/
def getDayIfOwned (db : DB) (dayId userId : Id) : Option Day :=
  db.days.find? (fun d => d.id == dayId && dayOwnerOf db d == some userId)

/-- The user reachable from a section by walking up to its day's plan. -/
def sectionOwnerOf (db : DB) (s : Section) : Option Id :=
  (db.days.find? (fun d => d.id == s.dayId)).bind (dayOwnerOf db)

/-- `getSectionIfOwned` (plans.ts). -/
def getSectionIfOwned (db : DB) (sectionId userId : Id) : Option Section :=
  db.sections.find? (fun s => s.id == sectionId && sectionOwnerOf db s == some userId)

/-- The user reachable from an exercise by walking up to its section's day's plan. -/
def exerciseOwnerOf (db : DB) (e : Exercise) : Option Id :=
  (db.sections.find? (fun s => s.id == e.sectionId)).bind (sectionOwnerOf db)

/-- `getExerciseIfOwned` (plans.ts). -/
def getExerciseIfOwned (db : DB) (exerciseId userId : Id) : Option Exercise :=
  db.exercises.find? (fun e => e.id == exerciseId && exerciseOwnerOf db e == some userId)

/-! ### Order computation (plans.ts lines 114-120 and 361-367)

`findFirst({ where: parent, orderBy: { order: "desc" }, select: { order } })`
returns the maximum order value among the parent's children, or nothing when
there are none; `last?.order ?? 0` then yields that maximum or `0`.  Over a
list of naturals this is exactly `foldr max 0`. -/

/-- Maximum existing `dayOrder` within a plan, `0` when the plan has no days. -/
def maxDayOrder (db : DB) (planId : Id) : Nat :=
  ((db.days.filter (fun d => d.planId == planId)).map Day.dayOrder).foldr max 0

/-- Maximum existing `exerciseOrder` within a section, `0` when empty. -/
def maxExerciseOrder (db : DB) (sectionId : Id) : Nat :=
  ((db.exercises.filter (fun e => e.sectionId == sectionId)).map Exercise.exerciseOrder).foldr max 0

/-! ### Stable ascending sort used for listing (`orderBy: { ...: "asc" }`) -/

/-- Insert into a list sorted ascending by `key` (stable). -/
def insertByKey {α : Type} (key : α → Nat) (x : α) : List α → List α
  | [] => [x]
  | y :: ys => if key x ≤ key y then x :: y :: ys else y :: insertByKey key x ys

/-- Stable insertion sort ascending by `key`; denotes SQL `ORDER BY key ASC`. -/
def sortByKey {α : Type} (key : α → Nat) : List α → List α
  | [] => []
  | x :: xs => insertByKey key x (sortByKey key xs)

/-! ### Error message strings -/

/-- Error body of the plan routes in index.ts. -/
def msgNotFound : Str := "Not found".toList

/-- Error body `Plan not found` (plans.ts). -/
def msgPlanNotFound : Str := "Plan not found".toList

/-- Error body `Day not found` (plans.ts). -/
def msgDayNotFound : Str := "Day not found".toList

/-- Error body `Section not found` (plans.ts). -/
def msgSectionNotFound : Str := "Section not found".toList

/-- Error body `Exercise not found` (plans.ts). -/
def msgExerciseNotFound : Str := "Exercise not found".toList

/-! ### Plan routes (index.ts) -/

/-- `POST /plans` (index.ts): create a plan for the authenticated user. -/
def planCreate (db : DB) (userId : Id) (title : Option Str) : Resp Plan × DB :=
  match title with
  | none => (.err 400 "Title required".toList, db)
  | some t =>
    if trim t = [] then (.err 400 "Title required".toList, db)
    else
      let p : Plan := ⟨db.nextId, userId, trim t⟩
      (.ok 201 p, { db with plans := db.plans ++ [p], nextId := db.nextId + 1 })

/-- `PATCH /plans/:id` (index.ts): rename a plan owned by the user. -/
def planPatch (db : DB) (userId planId : Id) (title : Option Str) : Resp Plan × DB :=
  match title with
  | none => (.err 400 "Title required".toList, db)
  | some t =>
    if trim t = [] then (.err 400 "Title required".toList, db)
    else
      match db.plans.find? (fun p => p.id == planId && p.userId == userId) with
      | none => (.err 404 msgNotFound, db)
      | some p =>
        (.ok 200 { p with title := trim t },
         { db with plans :=
             db.plans.map (fun q => if q.id == planId then { q with title := trim t } else q) })

/-- `DELETE /plans/:id` (index.ts): delete a plan owned by the user.  The
foreign keys cascade: the plan's days, their sections and their exercises are
removed with it. -/
def planDelete (db : DB) (userId planId : Id) : Resp Unit × DB :=
  match db.plans.find? (fun p => p.id == planId && p.userId == userId) with
  | none => (.err 404 msgNotFound, db)
  | some _ =>
    (.ok 204 (),
     { db with
       plans := db.plans.filter (fun p => !(p.id == planId)),
       days := db.days.filter (fun d => !(d.planId == planId)),
       sections := db.sections.filter (fun s =>
         !(db.days.any (fun d => d.id == s.dayId && d.planId == planId))),
       exercises := db.exercises.filter (fun e =>
         !(db.sections.any (fun s => s.id == e.sectionId &&
             db.days.any (fun d => d.id == s.dayId && d.planId == planId)))) })

/-! ### Day routes (plans.ts) -/

/-- `GET /plans/:planId/days` (plans.ts): list a plan's days ascending by
`dayOrder`; 404 when the plan is not owned. -/
def getPlanDays (db : DB) (userId planId : Id) : Resp (List Day) × DB :=
  if assertPlanOwned db planId userId then
    (.ok 200 (sortByKey Day.dayOrder (db.days.filter (fun d => d.planId == planId))), db)
  else (.err 404 msgPlanNotFound, db)

/-- `POST /plans/:planId/days` (plans.ts): create a day with the next
`dayOrder`, defaulting the name, and atomically create its three sections
(`prisma.day.create` with a nested `sections.create` is one transaction). -/
def dayCreate (db : DB) (userId planId : Id) (name : Option Str) :
    Resp (Day × List Section) × DB :=
  if assertPlanOwned db planId userId then
    let nextOrder := maxDayOrder db planId + 1
    let base : Str :=
      match name with
      | none => dayLabel nextOrder
      | some s => if trim s = [] then dayLabel nextOrder else trim s
    let dayName := trim base
    let d : Day := ⟨db.nextId, planId, dayName, nextOrder⟩
    let s1 : Section := ⟨db.nextId + 1, db.nextId, .warmup, 1⟩
    let s2 : Section := ⟨db.nextId + 2, db.nextId, .workout, 2⟩
    let s3 : Section := ⟨db.nextId + 3, db.nextId, .stretch, 3⟩
    (.ok 201 (d, [s1, s2, s3]),
     { db with
       days := db.days ++ [d],
       sections := db.sections ++ [s1, s2, s3],
       nextId := db.nextId + 4 })
  else (.err 404 msgPlanNotFound, db)

/-- `PATCH /days/:dayId` (plans.ts): rename a day.  Validation runs before the
ownership check, exactly as in the source. -/
def dayPatch (db : DB) (userId dayId : Id) (name : Option Str) : Resp Day × DB :=
  if isBlank name then (.err 400 "Name required".toList, db)
  else
    match getDayIfOwned db dayId userId with
    | none => (.err 404 msgDayNotFound, db)
    | some d =>
      let newName := trim (name.getD [])
      (.ok 200 { d with name := newName },
       { db with days :=
           db.days.map (fun x => if x.id == dayId then { x with name := newName } else x) })

/-- `DELETE /days/:dayId` (plans.ts): delete an owned day; the cascade removes
its sections and their exercises. -/
def dayDelete (db : DB) (userId dayId : Id) : Resp Unit × DB :=
  match getDayIfOwned db dayId userId with
  | none => (.err 404 msgDayNotFound, db)
  | some _ =>
    (.ok 204 (),
     { db with
       days := db.days.filter (fun d => !(d.id == dayId)),
       sections := db.sections.filter (fun s => !(s.dayId == dayId)),
       exercises := db.exercises.filter (fun e =>
         !(db.sections.any (fun s => s.id == e.sectionId && s.dayId == dayId))) })

/-- `GET /days/:dayId/sections` (plans.ts): list a day's sections ascending by
`sectionOrder`. -/
def getDaySections (db : DB) (userId dayId : Id) : Resp (List Section) × DB :=
  match getDayIfOwned db dayId userId with
  | none => (.err 404 msgDayNotFound, db)
  | some _ =>
    (.ok 200 (sortByKey Section.sectionOrder (db.sections.filter (fun s => s.dayId == dayId))), db)

/-! ### Exercise routes (plans.ts) -/

/-- `GET /sections/:sectionId/exercises` (plans.ts). -/
def getSectionExercises (db : DB) (userId sectionId : Id) : Resp (List Exercise) × DB :=
  match getSectionIfOwned db sectionId userId with
  | none => (.err 404 msgSectionNotFound, db)
  | some _ =>
    (.ok 200 (sortByKey Exercise.exerciseOrder
        (db.exercises.filter (fun e => e.sectionId == sectionId))), db)

/-- `GET /exercises/:exerciseId` (plans.ts). -/
def getExercise (db : DB) (userId exerciseId : Id) : Resp Exercise × DB :=
  match getExerciseIfOwned db exerciseId userId with
  | none => (.err 404 msgExerciseNotFound, db)
  | some e => (.ok 200 e, db)

/-- Request body of `POST /sections/:sectionId/exercises`.  Absent JSON fields
are `none`; an out-of-enumeration `mode` or `timeUnit` is also `none`, since
the source rejects both exactly like a missing field. -/
structure ExerciseInput where
  name : Option Str := none
  mode : Option Mode := none
  sets : Option Nat := none
  reps : Option Str := none
  timeValue : Option Nat := none
  timeUnit : Option TimeUnit := none
deriving DecidableEq, Repr

/-- `POST /sections/:sectionId/exercises` (plans.ts): ownership check, then
name/mode validation, then mode-specific validation, then `max + 1` order
assignment and insertion, storing the unused mode's fields as null. -/
def exerciseCreate (db : DB) (userId sectionId : Id) (body : ExerciseInput) :
    Resp Exercise × DB :=
  match getSectionIfOwned db sectionId userId with
  | none => (.err 404 msgSectionNotFound, db)
  | some _ =>
    if isBlank body.name then (.err 400 "Exercise name required".toList, db)
    else
      let name := trim (body.name.getD [])
      match body.mode with
      | none => (.err 400 "Mode must be \x27reps\x27 or \x27time\x27".toList, db)
      | some mode =>
        match mode with
        | .reps =>
          match body.sets with
          | none => (.err 400 "Sets required".toList, db)
          | some sets =>
            if sets < 1 then (.err 400 "Sets required".toList, db)
            else if isBlank body.reps then (.err 400 "Reps required".toList, db)
            else
              let nextOrder := maxExerciseOrder db sectionId + 1
              let e : Exercise :=
                ⟨db.nextId, sectionId, name, .reps,
                 some sets, some (trim (body.reps.getD [])), none, none, nextOrder⟩
              (.ok 201 e,
               { db with exercises := db.exercises ++ [e], nextId := db.nextId + 1 })
        | .time =>
          match body.timeValue with
          | none => (.err 400 "Time value required".toList, db)
          | some tv =>
            if tv < 1 then (.err 400 "Time value required".toList, db)
            else
              match body.timeUnit with
              | none => (.err 400 "Invalid time unit".toList, db)
              | some tu =>
                let nextOrder := maxExerciseOrder db sectionId + 1
                let e : Exercise :=
                  ⟨db.nextId, sectionId, name, .time,
                   none, none, some tv, some tu, nextOrder⟩
                (.ok 201 e,
                 { db with exercises := db.exercises ++ [e], nextId := db.nextId + 1 })

/-- Request body of `PATCH /exercises/:exerciseId`.  The handler forwards the
parsed JSON body to `prisma.exercise.update({ data: body })` unvalidated, so
any subset of the table's writable columns may appear, including the scalar
foreign key `sectionId` (Prisma's unchecked update input).  For a nullable
column, `some none` means the request set it to null. -/
structure ExercisePatch where
  name : Option Str := none
  mode : Option Mode := none
  sets : Option (Option Nat) := none
  reps : Option (Option Str) := none
  timeValue : Option (Option Nat) := none
  timeUnit : Option (Option TimeUnit) := none
  sectionId : Option Id := none
deriving DecidableEq, Repr

/-- Column-wise application of an update body to a row. -/
def applyPatch (e : Exercise) (p : ExercisePatch) : Exercise :=
  { e with
    name := p.name.getD e.name,
    mode := p.mode.getD e.mode,
    sets := p.sets.getD e.sets,
    reps := p.reps.getD e.reps,
    timeValue := p.timeValue.getD e.timeValue,
    timeUnit := p.timeUnit.getD e.timeUnit,
    sectionId := p.sectionId.getD e.sectionId }

/-- `PATCH /exercises/:exerciseId` (plans.ts): ownership check, then
`prisma.exercise.update({ data: body })` with the body as-is.  A `sectionId`
pointing at no existing section would violate the foreign-key constraint and
make the update throw (surfaced as a 500), leaving the store unchanged. -/
def exercisePatch (db : DB) (userId exerciseId : Id) (p : ExercisePatch) :
    Resp Exercise × DB :=
  match getExerciseIfOwned db exerciseId userId with
  | none => (.err 404 msgExerciseNotFound, db)
  | some e =>
    match p.sectionId with
    | some sid =>
      if (db.sections.find? (fun s => s.id == sid)).isSome then
        (.ok 200 (applyPatch e p),
         { db with exercises :=
             db.exercises.map (fun x => if x.id == exerciseId then applyPatch x p else x) })
      else (.err 500 "Internal error".toList, db)
    | none =>
      (.ok 200 (applyPatch e p),
       { db with exercises :=
           db.exercises.map (fun x => if x.id == exerciseId then applyPatch x p else x) })

/-- `DELETE /exercises/:exerciseId` (plans.ts). -/
def exerciseDelete (db : DB) (userId exerciseId : Id) : Resp Unit × DB :=
  match getExerciseIfOwned db exerciseId userId with
  | none => (.err 404 msgExerciseNotFound, db)
  | some _ =>
    (.ok 204 (),
     { db with exercises := db.exercises.filter (fun e => !(e.id == exerciseId)) })

/-! ### The two store interactions inside the exercise-create handler

The handler issues two separate awaited Prisma calls with no transaction
around them: first `findFirst(orderBy desc)` to compute `nextOrder`
(denoted by `maxExerciseOrder + 1`), then `create` to insert the row.  Under
concurrent requests these two steps of different requests may interleave.
`insertExerciseRow` is the second step in isolation. -/

/-- The insertion step of `POST /sections/:sectionId/exercises`: add a row
with an order value computed earlier (possibly against a stale snapshot). -/
def insertExerciseRow (db : DB) (sectionId : Id) (name : Str) (mode : Mode)
    (sets : Option Nat) (reps : Option Str) (timeValue : Option Nat)
    (timeUnit : Option TimeUnit) (ord : Nat) : DB :=
  { db with
    exercises := db.exercises ++
      [⟨db.nextId, sectionId, name, mode, sets, reps, timeValue, timeUnit, ord⟩],
    nextId := db.nextId + 1 }

/-! ### Frontend time validation (ExerciseFormScreen.tsx, validateTime) -/

/-- `validateTime` from the exercise form: the per-unit range rule
(seconds/minutes 1-59, hours 1-12).  Returns the error message, or `none`
when the value is accepted.  This check exists only in the mobile client;
the server route does not perform it. -/
def validateTime (v : Nat) (unit : TimeUnit) : Option Str :=
  if v < 1 then some "Time must be at least 1".toList
  else if unit == .sec && v > 59 then some "Seconds must be 1-59".toList
  else if unit == .min && v > 59 then some "Minutes must be 1-59".toList
  else if unit == .hour && v > 12 then some "Hours must be at most 12".toList
  else none

/-! ### Authentication middleware (middleware/auth.ts) -/

/-- JavaScript `header.split(" ")`: split at every single space character,
keeping empty fragments. -/
def splitOnSpace : Str → List Str
  | [] => [[]]
  | c :: cs =>
    if c = ' ' then [] :: splitOnSpace cs
    else
      match splitOnSpace cs with
      | [] => [[c]]
      | w :: ws => (c :: w) :: ws

/-- Outcome of the middleware: a 401 rejection with an error message, or the
verified user id attached to the request. -/
inductive AuthResult where
  | denied : Str → AuthResult
  | granted : Id → AuthResult
deriving DecidableEq, Repr

/-- `requireAuth` (auth.ts): take `header.split(" ")[1]` as the token — the
scheme in front is never inspected — reject a missing header or missing/empty
token with 401 `No token`, then verify the token (`jwt.verify`, abstracted as
the `verify` oracle), rejecting failures with 401 `Invalid token`.  All of
this runs before any resource lookup. -/
def requireAuth (verify : Str → Option Id) (header : Option Str) : AuthResult :=
  match header with
  | none => .denied "No token".toList
  | some h =>
    match (splitOnSpace h)[1]? with
    | none => .denied "No token".toList
    | some tok =>
      if tok = [] then .denied "No token".toList
      else
        match verify tok with
        | some uid => .granted uid
        | none => .denied "Invalid token".toList

/-! ### Mutating operations and reachable states

Every state-changing request of the API, with its authenticated caller.  Read
routes do not change the store, so a state is observable iff it is produced
by a sequence of these operations from the empty store. -/

/-- One mutating API request. -/
inductive Op where
  | planCreate (userId : Id) (title : Option Str)
  | planPatch (userId planId : Id) (title : Option Str)
  | planDelete (userId planId : Id)
  | dayCreate (userId planId : Id) (name : Option Str)
  | dayPatch (userId dayId : Id) (name : Option Str)
  | dayDelete (userId dayId : Id)
  | exerciseCreate (userId sectionId : Id) (body : ExerciseInput)
  | exercisePatch (userId exerciseId : Id) (body : ExercisePatch)
  | exerciseDelete (userId exerciseId : Id)
deriving DecidableEq, Repr

/-- Whether an operation is the permissive exercise partial update. -/
def Op.isExPatch : Op → Bool
  | .exercisePatch _ _ _ => true
  | _ => false

/-- State transition of one request (the handler's resulting store). -/
def step (db : DB) : Op → DB
  | .planCreate u t => (planCreate db u t).2
  | .planPatch u pid t => (planPatch db u pid t).2
  | .planDelete u pid => (planDelete db u pid).2
  | .dayCreate u pid nm => (dayCreate db u pid nm).2
  | .dayPatch u did nm => (dayPatch db u did nm).2
  | .dayDelete u did => (dayDelete db u did).2
  | .exerciseCreate u sid b => (exerciseCreate db u sid b).2
  | .exercisePatch u eid b => (exercisePatch db u eid b).2
  | .exerciseDelete u eid => (exerciseDelete db u eid).2

/-- The store reached by a request sequence from the empty store. -/
def run (ops : List Op) : DB := ops.foldl step DB.empty

/-! ### Store invariants -/

/-- Every stored id, and every day-pointing foreign key, is below the
freshness counter (cuids are never reissued). -/
def idsFresh (db : DB) : Prop :=
  (∀ p ∈ db.plans, p.id < db.nextId) ∧
  (∀ d ∈ db.days, d.id < db.nextId) ∧
  (∀ s ∈ db.sections, s.id < db.nextId ∧ s.dayId < db.nextId) ∧
  (∀ e ∈ db.exercises, e.id < db.nextId)

/-- Primary keys are unique in each table. -/
def idsNodup (db : DB) : Prop :=
  (db.plans.map Plan.id).Nodup ∧ (db.days.map Day.id).Nodup ∧
  (db.sections.map Section.id).Nodup ∧ (db.exercises.map Exercise.id).Nodup

/-- The sections of a day, in table order. -/
def sectionsOf (db : DB) (dayId : Id) : List Section :=
  db.sections.filter (fun s => s.dayId == dayId)

/-- A day has exactly its three sections: types warmup, workout, stretch with
`sectionOrder` 1, 2, 3. -/
def dayComplete (db : DB) (d : Day) : Prop :=
  (sectionsOf db d.id).map (fun s => (s.type, s.sectionOrder)) =
    [(SectionType.warmup, 1), (SectionType.workout, 2), (SectionType.stretch, 3)]

/-- The store invariant: fresh unique ids, and every day complete. -/
def Inv (db : DB) : Prop :=
  idsFresh db ∧ idsNodup db ∧ ∀ d ∈ db.days, dayComplete db d

/-- The discriminated-union shape of an exercise row: the mode's field group
is populated and the other group's fields are null. -/
def modeConsistent (e : Exercise) : Bool :=
  match e.mode with
  | .reps => e.sets.isSome && e.reps.isSome && e.timeValue.isNone && e.timeUnit.isNone
  | .time => e.timeValue.isSome && e.timeUnit.isSome && e.sets.isNone && e.reps.isNone

/-- Frame property between two stores: any row surviving by id keeps its
parent foreign key. -/
def parentLinksPreserved (db db' : DB) : Prop :=
  (∀ p' ∈ db'.plans, ∀ p ∈ db.plans, p'.id = p.id → p'.userId = p.userId) ∧
  (∀ d' ∈ db'.days, ∀ d ∈ db.days, d'.id = d.id → d'.planId = d.planId) ∧
  (∀ s' ∈ db'.sections, ∀ s ∈ db.sections, s'.id = s.id → s'.dayId = s.dayId) ∧
  (∀ e' ∈ db'.exercises, ∀ e ∈ db.exercises, e'.id = e.id → e'.sectionId = e.sectionId)

/-! ### Concrete fixture states, built through the handlers themselves

User 10 registers a plan `Strength` (plan id 0), creates one day under it
(day id 1, sections 2 warmup / 3 workout / 4 stretch), and adds a reps
exercise `Squat` (exercise id 5) to the workout section.  User 20 owns
nothing. -/

/-- Store after user 10 creates the plan `Strength`. -/
def fxPlan : DB := (planCreate DB.empty 10 (some "Strength".toList)).2

/-- Store after user 10 additionally creates a day (no name given). -/
def fxDay : DB := (dayCreate fxPlan 10 0 none).2

/-- Create body for the reps exercise `Squat`, 3 sets of 10. -/
def squatInput : ExerciseInput :=
  { name := some "Squat".toList, mode := some Mode.reps,
    sets := some 3, reps := some "10".toList }

/-- Store after user 10 additionally creates `Squat` in the workout section. -/
def fxEx : DB := (exerciseCreate fxDay 10 3 squatInput).2

/-- Create body for a time exercise with `timeUnit = hour`, `timeValue = 13`. -/
def plank13 : ExerciseInput :=
  { name := some "Plank".toList, mode := some Mode.time,
    timeValue := some 13, timeUnit := some TimeUnit.hour }

/-- Create body for a time exercise with `timeUnit = hour`, `timeValue = 12`. -/
def plank12 : ExerciseInput :=
  { name := some "Plank".toList, mode := some Mode.time,
    timeValue := some 12, timeUnit := some TimeUnit.hour }

/-- Store after user 10 deletes day 1 of `fxDay` and then creates a new day
under the same plan: the scenario create A, delete A, create B. -/
def fxReuse : DB := (dayCreate (dayDelete fxDay 10 1).2 10 0 none).2

/-- Update body setting only the time-group fields of an exercise. -/
def unionBreakPatch : ExercisePatch :=
  { timeValue := some (some 5), timeUnit := some (some TimeUnit.min) }

/-- Update body setting only the scalar foreign key `sectionId` (to the warmup
section, id 2). -/
def reparentPatch : ExercisePatch := { sectionId := some 2 }

/-! ## Helper lemmas -/

theorem splitOnSpace_ne_nil (s : Str) : splitOnSpace s ≠ [] := by
  induction s with
  | nil => simp [splitOnSpace]
  | cons c cs ih =>
    rw [splitOnSpace]
    split
    · simp
    · cases h : splitOnSpace cs with
      | nil => simp
      | cons w ws => simp [h]

theorem splitOnSpace_no_space {t : Str} (h : ' ' ∉ t) : splitOnSpace t = [t] := by
  induction t with
  | nil => rfl
  | cons c cs ih =>
    have hc : ¬ c = ' ' := fun hc => h (hc ▸ List.mem_cons_self c cs)
    have hcs : ' ' ∉ cs := fun hm => h (List.mem_cons_of_mem c hm)
    rw [splitOnSpace, if_neg hc, ih hcs]

theorem splitOnSpace_append {s t : Str} (hs : ' ' ∉ s) :
    splitOnSpace (s ++ ' ' :: t) = s :: splitOnSpace t := by
  induction s with
  | nil => rw [List.nil_append, splitOnSpace, if_pos rfl]
  | cons c cs ih =>
    have hc : ¬ c = ' ' := fun hc => hs (hc ▸ List.mem_cons_self c cs)
    have hcs : ' ' ∉ cs := fun hm => hs (List.mem_cons_of_mem c hm)
    rw [List.cons_append, splitOnSpace, if_neg hc, ih hcs]

theorem le_foldr_max {l : List Nat} {x : Nat} (h : x ∈ l) : x ≤ l.foldr max 0 :=
  List.le_max_of_le h le_rfl

theorem head?_dropWhile_not {p : Char → Bool} :
    ∀ {l : Str} {c : Char}, (l.dropWhile p).head? = some c → p c = false := by
  intro l
  induction l with
  | nil => intro c h; simp [List.dropWhile] at h
  | cons a t ih =>
    intro c h
    rw [List.dropWhile_cons] at h
    by_cases ha : p a
    · rw [if_pos ha] at h; exact ih h
    · rw [if_neg ha] at h
      simp only [List.head?_cons, Option.some.injEq] at h
      subst h
      exact Bool.not_eq_true _ ▸ (by simpa using ha)

theorem trimL_eq_self {l : Str}
    (h : ∀ c, l.head? = some c → c.isWhitespace = false) : trimL l = l := by
  cases l with
  | nil => rfl
  | cons c cs =>
    have := h c rfl
    rw [trimL, List.dropWhile_cons, this]
    simp

theorem trimR_eq_self {l : Str}
    (h : ∀ c, l.getLast? = some c → c.isWhitespace = false) : trimR l = l := by
  cases hrev : l.reverse with
  | nil =>
    have : l = [] := by simpa using congrArg List.reverse hrev
    subst this; rfl
  | cons c t =>
    have hlast : l.getLast? = some c := by
      rw [← List.head?_reverse, hrev]; rfl
    have hc := h c hlast
    rw [trimR, hrev, List.dropWhile_cons, hc]
    simp [← hrev]

theorem trimL_prefix_head? {l : Str} (h : trimR l ≠ []) :
    (trimR l).head? = l.head? := by
  have hsuf : List.IsSuffix (l.reverse.dropWhile Char.isWhitespace) l.reverse :=
    List.dropWhile_suffix _
  have hpre : List.IsPrefix (trimR l) l := by
    have := hsuf.reverse
    rwa [List.reverse_reverse] at this
  obtain ⟨t, ht⟩ := hpre
  cases hy : trimR l with
  | nil => exact absurd hy h
  | cons a ys =>
    rw [hy] at ht
    rw [← ht]
    rfl

theorem trim_head?_not {s : Str} {c : Char} (h : (trim s).head? = some c) :
    c.isWhitespace = false := by
  have hne : trim s ≠ [] := by intro hnil; rw [hnil] at h; exact Option.noConfusion h
  have h1 : (trim s).head? = (trimL s).head? := trimL_prefix_head? hne
  exact head?_dropWhile_not (h1 ▸ h)

theorem trim_getLast?_not {s : Str} {c : Char} (h : (trim s).getLast? = some c) :
    c.isWhitespace = false := by
  have h1 : (trim s).getLast? = ((trimL s).reverse.dropWhile Char.isWhitespace).head? := by
    rw [trim, trimR, List.getLast?_reverse]
  exact head?_dropWhile_not (h1 ▸ h)

theorem trim_idem (s : Str) : trim (trim s) = trim s := by
  rw [trim, trimL_eq_self (fun c hc => trim_head?_not hc),
    trimR_eq_self (fun c hc => trim_getLast?_not hc)]

theorem digitChar_not_ws {d : Nat} (h : d < 10) : (digitChar d).isWhitespace = false := by
  unfold digitChar
  interval_cases d <;> decide

theorem natChars_ne_nil (n : Nat) : natChars n ≠ [] := by
  rw [natChars, natCharsAux]
  split
  · simp
  · simp

theorem natCharsAux_not_ws :
    ∀ fuel n, ∀ c ∈ natCharsAux fuel n, c.isWhitespace = false := by
  intro fuel
  induction fuel with
  | zero => intro n c hc; simp [natCharsAux] at hc
  | succ fuel ih =>
    intro n c hc
    rw [natCharsAux] at hc
    split at hc
    · next h =>
      simp only [List.mem_singleton] at hc
      subst hc
      exact digitChar_not_ws h
    · next h =>
      rcases List.mem_append.1 hc with h1 | h2
      · exact ih (n / 10) c h1
      · simp only [List.mem_singleton] at h2
        subst h2
        exact digitChar_not_ws (Nat.mod_lt _ (by omega))

theorem natChars_not_ws (n : Nat) : ∀ c ∈ natChars n, c.isWhitespace = false :=
  natCharsAux_not_ws (n + 1) n

theorem trim_dayLabel (n : Nat) : trim (dayLabel n) = dayLabel n := by
  have hcons : dayLabel n = 'D' :: ('a' :: 'y' :: ' ' :: natChars n) := rfl
  rw [trim, trimL_eq_self, trimR_eq_self]
  · intro c hc
    have hlast : (dayLabel n).getLast? = (natChars n).getLast? := by
      rw [dayLabel, List.getLast?_append_of_ne_nil _ (natChars_ne_nil n)]
    rw [hlast] at hc
    exact natChars_not_ws n c (List.mem_of_mem_getLast? hc)
  · intro c hc
    rw [hcons] at hc
    simp only [List.head?_cons, Option.some.injEq] at hc
    subst hc
    decide

theorem mem_eq_of_nodup_map {α β : Type} {f : α → β} {l : List α}
    (h : (l.map f).Nodup) {x y : α} (hx : x ∈ l) (hy : y ∈ l) (hf : f x = f y) : x = y :=
  List.inj_on_of_nodup_map h hx hy hf

theorem planDelete_not_found {db : DB} {u pid : Id}
    (h : db.plans.find? (fun q => q.id == pid && q.userId == u) = none) :
    planDelete db u pid = (.err 404 msgNotFound, db) := by
  simp only [planDelete, h]

theorem plans_find_owner_none {db : DB} {u1 u2 pid : Id}
    (hnd : (db.plans.map Plan.id).Nodup) (hne : u2 ≠ u1)
    {p : Plan} (hp : p ∈ db.plans) (hid : p.id = pid) (hu : p.userId = u1) :
    db.plans.find? (fun q => q.id == pid && q.userId == u2) = none := by
  rw [List.find?_eq_none]
  intro x hx
  simp only [Bool.and_eq_true, beq_iff_eq, not_and]
  intro hxid hxu
  have hxp : x = p := mem_eq_of_nodup_map hnd hx hp (by rw [hxid, hid])
  exact hne ((hxp ▸ hxu).symm.trans hu ▸ rfl)

theorem getDayIfOwned_owner_none {db : DB} {u1 u2 did : Id}
    (hnd : (db.days.map Day.id).Nodup) (hne : u2 ≠ u1)
    {d : Day} (hd : d ∈ db.days) (hid : d.id = did) (how : dayOwnerOf db d = some u1) :
    getDayIfOwned db did u2 = none := by
  rw [getDayIfOwned, List.find?_eq_none]
  intro x hx
  simp only [Bool.and_eq_true, beq_iff_eq, not_and]
  intro hxid hxo
  have hxd : x = d := mem_eq_of_nodup_map hnd hx hd (by rw [hxid, hid])
  rw [hxd, how] at hxo
  exact hne (Option.some.inj hxo).symm

theorem getSectionIfOwned_owner_none {db : DB} {u1 u2 sid : Id}
    (hnd : (db.sections.map Section.id).Nodup) (hne : u2 ≠ u1)
    {s : Section} (hs : s ∈ db.sections) (hid : s.id = sid)
    (how : sectionOwnerOf db s = some u1) :
    getSectionIfOwned db sid u2 = none := by
  rw [getSectionIfOwned, List.find?_eq_none]
  intro x hx
  simp only [Bool.and_eq_true, beq_iff_eq, not_and]
  intro hxid hxo
  have hxs : x = s := mem_eq_of_nodup_map hnd hx hs (by rw [hxid, hid])
  rw [hxs, how] at hxo
  exact hne (Option.some.inj hxo).symm

theorem getExerciseIfOwned_owner_none {db : DB} {u1 u2 eid : Id}
    (hnd : (db.exercises.map Exercise.id).Nodup) (hne : u2 ≠ u1)
    {e : Exercise} (he : e ∈ db.exercises) (hid : e.id = eid)
    (how : exerciseOwnerOf db e = some u1) :
    getExerciseIfOwned db eid u2 = none := by
  rw [getExerciseIfOwned, List.find?_eq_none]
  intro x hx
  simp only [Bool.and_eq_true, beq_iff_eq, not_and]
  intro hxid hxo
  have hxe : x = e := mem_eq_of_nodup_map hnd hx he (by rw [hxid, hid])
  rw [hxe, how] at hxo
  exact hne (Option.some.inj hxo).symm

theorem pairs_of_sub {β : Type} {key par : β → Id} {l l' : List β}
    (hnd : (l.map key).Nodup) (hsub : ∀ x ∈ l', x ∈ l) :
    ∀ x' ∈ l', ∀ x ∈ l, key x' = key x → par x' = par x := by
  intro x' hx' x hx hk
  rw [mem_eq_of_nodup_map hnd (hsub x' hx') hx hk]

theorem pairs_of_map {β : Type} {key par : β → Id} {l : List β} {f : β → β}
    (hnd : (l.map key).Nodup)
    (hkey : ∀ x, key (f x) = key x) (hpar : ∀ x, par (f x) = par x) :
    ∀ x' ∈ l.map f, ∀ x ∈ l, key x' = key x → par x' = par x := by
  intro x' hx' x hx hk
  obtain ⟨q, hq, rfl⟩ := List.mem_map.1 hx'
  rw [hkey] at hk
  rw [hpar, mem_eq_of_nodup_map hnd hq hx hk]

theorem pairs_of_append {β : Type} {key par : β → Id} {l ext : List β} {n : Id}
    (hnd : (l.map key).Nodup)
    (hlt : ∀ x ∈ l, key x < n) (hge : ∀ x ∈ ext, n ≤ key x) :
    ∀ x' ∈ l ++ ext, ∀ x ∈ l, key x' = key x → par x' = par x := by
  intro x' hx' x hx hk
  rcases List.mem_append.1 hx' with h1 | h2
  · rw [mem_eq_of_nodup_map hnd h1 hx hk]
  · have h3 := hge x' h2
    rw [hk] at h3
    exact absurd h3 (Nat.not_le.2 (hlt x hx))

theorem parentLinksPreserved_refl (db : DB) (hnd : idsNodup db) :
    parentLinksPreserved db db :=
  ⟨pairs_of_sub hnd.1 (fun _ h => h), pairs_of_sub hnd.2.1 (fun _ h => h),
   pairs_of_sub hnd.2.2.1 (fun _ h => h), pairs_of_sub hnd.2.2.2 (fun _ h => h)⟩

theorem nodup_ids_append_fresh {β : Type} {key : β → Id} {l : List β} {x : β} {n : Id}
    (hnd : (l.map key).Nodup) (hlt : ∀ y ∈ l, key y < n) (hx : key x = n) :
    ((l ++ [x]).map key).Nodup := by
  rw [List.map_append, List.nodup_append]
  refine ⟨hnd, List.nodup_singleton _, ?_⟩
  intro a ha hb
  simp only [List.map_cons, List.map_nil, List.mem_singleton] at hb
  obtain ⟨y, hy, rfl⟩ := List.mem_map.1 ha
  have hlt' := hlt y hy
  rw [hb, hx] at hlt'
  exact Nat.lt_irrefl n hlt'

theorem map_ids_of_update {β : Type} {key : β → Id} {f : β → β} (l : List β)
    (hf : ∀ x, key (f x) = key x) : (l.map f).map key = l.map key := by
  rw [List.map_map]
  exact List.map_congr_left (fun x _ => hf x)

/-- Replacing only the exercises table (and possibly advancing the counter)
keeps the invariant, since no day or section changes. -/
theorem Inv_set_exercises (db : DB) (h : Inv db) (l : List Exercise) (nid : Nat)
    (hge : db.nextId ≤ nid) (hnd : (l.map Exercise.id).Nodup)
    (hlt : ∀ e ∈ l, e.id < nid) :
    Inv {db with exercises := l, nextId := nid} := by
  obtain ⟨⟨hfP, hfD, hfS, hfE⟩, ⟨hnP, hnD, hnS, hnE⟩, hC⟩ := h
  refine ⟨⟨?_, ?_, ?_, ?_⟩, ⟨hnP, hnD, hnS, hnd⟩, ?_⟩
  · exact fun p hp => Nat.lt_of_lt_of_le (hfP p hp) hge
  · exact fun d hd => Nat.lt_of_lt_of_le (hfD d hd) hge
  · exact fun s hs => ⟨Nat.lt_of_lt_of_le (hfS s hs).1 hge,
      Nat.lt_of_lt_of_le (hfS s hs).2 hge⟩
  · exact hlt
  · exact hC

/-- Replacing only the plans table (and possibly advancing the counter)
keeps the invariant. -/
theorem Inv_set_plans (db : DB) (h : Inv db) (l : List Plan) (nid : Nat)
    (hge : db.nextId ≤ nid) (hnd : (l.map Plan.id).Nodup)
    (hlt : ∀ p ∈ l, p.id < nid) :
    Inv {db with plans := l, nextId := nid} := by
  obtain ⟨⟨hfP, hfD, hfS, hfE⟩, ⟨hnP, hnD, hnS, hnE⟩, hC⟩ := h
  refine ⟨⟨?_, ?_, ?_, ?_⟩, ⟨hnd, hnD, hnS, hnE⟩, ?_⟩
  · exact hlt
  · exact fun d hd => Nat.lt_of_lt_of_le (hfD d hd) hge
  · exact fun s hs => ⟨Nat.lt_of_lt_of_le (hfS s hs).1 hge,
      Nat.lt_of_lt_of_le (hfS s hs).2 hge⟩
  · exact fun e he => Nat.lt_of_lt_of_le (hfE e he) hge
  · exact hC

/-- The composite day + three sections creation keeps the invariant. -/
theorem Inv_dayCreate_success (db : DB) (h : Inv db) (pid : Id) (nm : Str) (ord : Nat) :
    Inv {db with
      days := db.days ++ [⟨db.nextId, pid, nm, ord⟩],
      sections := db.sections ++
        [⟨db.nextId + 1, db.nextId, .warmup, 1⟩, ⟨db.nextId + 2, db.nextId, .workout, 2⟩,
         ⟨db.nextId + 3, db.nextId, .stretch, 3⟩],
      nextId := db.nextId + 4} := by
  obtain ⟨⟨hfP, hfD, hfS, hfE⟩, ⟨hnP, hnD, hnS, hnE⟩, hC⟩ := h
  refine ⟨⟨?_, ?_, ?_, ?_⟩, ⟨hnP, ?_, ?_, hnE⟩, ?_⟩
  · exact fun p hp => Nat.lt_of_lt_of_le (hfP p hp) (Nat.le_add_right _ 4)
  · intro d hd
    rcases List.mem_append.1 hd with h1 | h2
    · exact Nat.lt_of_lt_of_le (hfD d h1) (Nat.le_add_right _ 4)
    · rw [List.mem_singleton] at h2
      subst h2
      exact Nat.lt_add_of_pos_right (by decide)
  · intro s hs
    rcases List.mem_append.1 hs with h1 | h2
    · exact ⟨Nat.lt_of_lt_of_le (hfS s h1).1 (Nat.le_add_right _ 4),
        Nat.lt_of_lt_of_le (hfS s h1).2 (Nat.le_add_right _ 4)⟩
    · simp only [List.mem_cons, List.not_mem_nil, or_false] at h2
      rcases h2 with rfl | rfl | rfl <;>
        exact ⟨Nat.add_lt_add_left (by decide) _, Nat.lt_add_of_pos_right (by decide)⟩
  · exact fun e he => Nat.lt_of_lt_of_le (hfE e he) (Nat.le_add_right _ 4)
  · exact nodup_ids_append_fresh hnD hfD rfl
  · rw [List.map_append, List.nodup_append]
    refine ⟨hnS, ?_, ?_⟩
    · show List.Nodup [db.nextId + 1, db.nextId + 2, db.nextId + 3]
      have hgen : ∀ n : Nat, List.Nodup [n + 1, n + 2, n + 3] := by
        intro n
        refine List.nodup_cons.2 ⟨?_, List.nodup_cons.2 ⟨?_, List.nodup_singleton _⟩⟩
        · intro hmem
          rcases List.mem_cons.1 hmem with h | h
          · omega
          · rw [List.mem_singleton] at h
            omega
        · intro hmem
          rw [List.mem_singleton] at hmem
          omega
      exact hgen db.nextId
    · intro a ha hb
      obtain ⟨y, hy, rfl⟩ := List.mem_map.1 ha
      have hylt := (hfS y hy).1
      have hble : db.nextId + 1 ≤ Section.id y := by
        simp only [List.map_cons, List.map_nil, List.mem_cons, List.not_mem_nil,
          or_false] at hb
        rcases hb with hb | hb | hb <;> rw [hb] <;>
          exact Nat.add_le_add_left (by decide) _
      exact Nat.lt_irrefl _ (Nat.lt_of_lt_of_le hylt (Nat.le_of_succ_le hble))
  · intro d hd
    rcases List.mem_append.1 hd with h1 | h2
    · -- a pre-existing day: the three fresh sections have dayId = nextId ≠ d.id
      have hcd := hC d h1
      have hdlt := hfD d h1
      simp only [dayComplete, sectionsOf] at hcd ⊢
      rw [List.filter_append]
      have hnil : List.filter (fun s : Section => s.dayId == d.id)
          [⟨db.nextId + 1, db.nextId, SectionType.warmup, 1⟩,
           ⟨db.nextId + 2, db.nextId, SectionType.workout, 2⟩,
           ⟨db.nextId + 3, db.nextId, SectionType.stretch, 3⟩] = [] := by
        rw [List.filter_eq_nil_iff]
        intro s hs
        simp only [List.mem_cons, List.not_mem_nil, or_false] at hs
        rcases hs with rfl | rfl | rfl <;>
          · show ¬ (db.nextId == d.id) = true
            simp only [beq_iff_eq]
            exact Nat.ne_of_gt hdlt
      rw [hnil, List.append_nil]
      exact hcd
    · -- the freshly created day: exactly its three fresh sections match
      rw [List.mem_singleton] at h2
      subst h2
      simp only [dayComplete, sectionsOf]
      rw [List.filter_append]
      have hnil : List.filter
          (fun s : Section => s.dayId == Day.id ⟨db.nextId, pid, nm, ord⟩)
          db.sections = [] := by
        rw [List.filter_eq_nil_iff]
        intro s hs
        have h2 := (hfS s hs).2
        show ¬ (s.dayId == db.nextId) = true
        simp only [beq_iff_eq]
        exact Nat.ne_of_lt h2
      rw [hnil, List.nil_append]
      show List.map _ (List.filter (fun s : Section => s.dayId == db.nextId) _) = _
      simp

/-- Renaming a day keeps the invariant. -/
theorem Inv_dayPatch_success (db : DB) (h : Inv db) (did : Id) (nm : Str) :
    Inv {db with
      days := db.days.map (fun x => if x.id == did then {x with name := nm} else x)} := by
  obtain ⟨⟨hfP, hfD, hfS, hfE⟩, ⟨hnP, hnD, hnS, hnE⟩, hC⟩ := h
  have hkey : ∀ x : Day,
      Day.id (if x.id == did then {x with name := nm} else x) = x.id := by
    intro x; split <;> rfl
  refine ⟨⟨hfP, ?_, hfS, hfE⟩, ⟨hnP, ?_, hnS, hnE⟩, ?_⟩
  · intro d hd
    obtain ⟨x, hx, rfl⟩ := List.mem_map.1 hd
    rw [hkey]
    exact hfD x hx
  · rw [map_ids_of_update _ hkey]
    exact hnD
  · intro d hd
    obtain ⟨x, hx, rfl⟩ := List.mem_map.1 hd
    have hcx := hC x hx
    simp only [dayComplete, sectionsOf] at hcx ⊢
    rw [hkey]
    exact hcx

/-- The cascading plan delete keeps the invariant. -/
theorem Inv_planDelete_success (db : DB) (h : Inv db) (pid : Id) :
    Inv {db with
      plans := db.plans.filter (fun p => !(p.id == pid)),
      days := db.days.filter (fun d => !(d.planId == pid)),
      sections := db.sections.filter (fun s =>
        !(db.days.any (fun d => d.id == s.dayId && d.planId == pid))),
      exercises := db.exercises.filter (fun e =>
        !(db.sections.any (fun s => s.id == e.sectionId &&
            db.days.any (fun d => d.id == s.dayId && d.planId == pid))))} := by
  obtain ⟨⟨hfP, hfD, hfS, hfE⟩, ⟨hnP, hnD, hnS, hnE⟩, hC⟩ := h
  refine ⟨⟨?_, ?_, ?_, ?_⟩, ⟨?_, ?_, ?_, ?_⟩, ?_⟩
  · exact fun p hp => hfP p (List.mem_of_mem_filter hp)
  · exact fun d hd => hfD d (List.mem_of_mem_filter hd)
  · exact fun s hs => hfS s (List.mem_of_mem_filter hs)
  · exact fun e he => hfE e (List.mem_of_mem_filter he)
  · exact hnP.sublist ((List.filter_sublist _).map _)
  · exact hnD.sublist ((List.filter_sublist _).map _)
  · exact hnS.sublist ((List.filter_sublist _).map _)
  · exact hnE.sublist ((List.filter_sublist _).map _)
  · intro d hd
    have hd0 := List.mem_filter.1 hd
    have hcd := hC d hd0.1
    have hdkeep : (d.planId == pid) = false := by
      have h2 := hd0.2
      rwa [Bool.not_eq_true'] at h2
    simp only [dayComplete, sectionsOf] at hcd ⊢
    rw [List.filter_filter]
    rw [List.filter_congr (l := db.sections) ?_]
    · exact hcd
    · intro s hs
      by_cases hsd : (s.dayId == d.id) = true
      · have hsd' : s.dayId = d.id := by rwa [beq_iff_eq] at hsd
        rw [hsd]
        have hany : (db.days.any (fun x => x.id == s.dayId && x.planId == pid)) = false := by
          rw [List.any_eq_false]
          intro x hx
          simp only [Bool.and_eq_true, beq_iff_eq, not_and]
          intro hxid hxp
          have hxd : x = d := mem_eq_of_nodup_map hnD hx hd0.1 (by rw [hxid, hsd'])
          rw [hxd] at hxp
          rw [hxp] at hdkeep
          simp at hdkeep
        rw [hany]
        rfl
      · rw [Bool.not_eq_true] at hsd
        rw [hsd]
        rfl

/-- The cascading day delete keeps the invariant. -/
theorem Inv_dayDelete_success (db : DB) (h : Inv db) (did : Id) :
    Inv {db with
      days := db.days.filter (fun d => !(d.id == did)),
      sections := db.sections.filter (fun s => !(s.dayId == did)),
      exercises := db.exercises.filter (fun e =>
        !(db.sections.any (fun s => s.id == e.sectionId && s.dayId == did)))} := by
  obtain ⟨⟨hfP, hfD, hfS, hfE⟩, ⟨hnP, hnD, hnS, hnE⟩, hC⟩ := h
  refine ⟨⟨?_, ?_, ?_, ?_⟩, ⟨?_, ?_, ?_, ?_⟩, ?_⟩
  · exact fun p hp => hfP p hp
  · exact fun d hd => hfD d (List.mem_of_mem_filter hd)
  · exact fun s hs => hfS s (List.mem_of_mem_filter hs)
  · exact fun e he => hfE e (List.mem_of_mem_filter he)
  · exact hnP
  · exact hnD.sublist ((List.filter_sublist _).map _)
  · exact hnS.sublist ((List.filter_sublist _).map _)
  · exact hnE.sublist ((List.filter_sublist _).map _)
  · intro d hd
    have hd0 := List.mem_filter.1 hd
    have hcd := hC d hd0.1
    have hdne : d.id ≠ did := by
      have := hd0.2; simp only [Bool.not_eq_true', beq_eq_false_iff_ne, ne_eq] at this
      exact this
    simp only [dayComplete, sectionsOf] at hcd ⊢
    rw [List.filter_filter]
    rw [List.filter_congr (l := db.sections) ?_]
    · exact hcd
    · intro s hs
      by_cases hsd : (s.dayId == d.id) = true
      · have hsd' : s.dayId = d.id := by rwa [beq_iff_eq] at hsd
        rw [hsd]
        have hkeep : (s.dayId == did) = false := by
          simp [hsd', hdne]
        rw [hkeep]
        rfl
      · rw [Bool.not_eq_true] at hsd
        rw [hsd]
        rfl

theorem bounds_of_map {β : Type} {key : β → Id} {l : List β} {f : β → β} {n : Nat}
    (hf : ∀ x, key (f x) = key x) (hb : ∀ x ∈ l, key x < n) :
    ∀ x ∈ l.map f, key x < n := by
  intro x hx
  obtain ⟨y, hy, rfl⟩ := List.mem_map.1 hx
  rw [hf]
  exact hb y hy

theorem Inv_empty : Inv DB.empty := by
  refine ⟨⟨?_, ?_, ?_, ?_⟩, ⟨?_, ?_, ?_, ?_⟩, ?_⟩ <;> simp [DB.empty]

/-- Every mutating request preserves the store invariant: in particular a Day
row is only ever inserted together with its three Sections in one step, and
rows are only removed by the cascades. -/
theorem Inv_step (db : DB) (op : Op) (h : Inv db) : Inv (step db op) := by
  cases op with
  | planCreate u t =>
    simp only [step, planCreate]
    repeat' split
    · exact h
    · exact h
    · refine Inv_set_plans db h _ _ (Nat.le_succ _) ?_ ?_
      · exact nodup_ids_append_fresh h.2.1.1 h.1.1 rfl
      · intro p hp
        rcases List.mem_append.1 hp with h1 | h2
        · exact Nat.lt_of_lt_of_le (h.1.1 p h1) (Nat.le_succ _)
        · rw [List.mem_singleton] at h2
          subst h2
          exact Nat.lt_succ_self _
  | planPatch u pid t =>
    simp only [step, planPatch]
    repeat' split
    all_goals
      first
      | exact h
      | (refine Inv_set_plans db h _ _ (Nat.le_refl _) ?_ ?_
         · rw [map_ids_of_update _ (fun x => by split <;> rfl)]
           exact h.2.1.1
         · exact bounds_of_map (fun x => by split <;> rfl) h.1.1)
  | planDelete u pid =>
    simp only [step, planDelete]
    repeat' split
    · exact h
    · exact Inv_planDelete_success db h pid
  | dayCreate u pid nm =>
    simp only [step, dayCreate]
    repeat' split
    all_goals
      first
      | exact h
      | exact Inv_dayCreate_success db h pid _ _
  | dayPatch u did nm =>
    simp only [step, dayPatch]
    repeat' split
    all_goals
      first
      | exact h
      | exact Inv_dayPatch_success db h did _
  | dayDelete u did =>
    simp only [step, dayDelete]
    repeat' split
    · exact h
    · exact Inv_dayDelete_success db h did
  | exerciseCreate u sid b =>
    simp only [step, exerciseCreate]
    repeat' split
    all_goals
      first
      | exact h
      | (refine Inv_set_exercises db h _ _ (Nat.le_succ _) ?_ ?_
         · exact nodup_ids_append_fresh h.2.1.2.2.2 h.1.2.2.2 rfl
         · intro e he
           rcases List.mem_append.1 he with h1 | h2
           · exact Nat.lt_of_lt_of_le (h.1.2.2.2 e h1) (Nat.le_succ _)
           · rw [List.mem_singleton] at h2
             subst h2
             exact Nat.lt_succ_self _)
  | exercisePatch u eid b =>
    simp only [step, exercisePatch]
    repeat' split
    all_goals
      first
      | exact h
      | (refine Inv_set_exercises db h _ _ (Nat.le_refl _) ?_ ?_
         · rw [map_ids_of_update _ (fun x => by split <;> rfl)]
           exact h.2.1.2.2.2
         · exact bounds_of_map (fun x => by split <;> rfl) h.1.2.2.2)
  | exerciseDelete u eid =>
    simp only [step, exerciseDelete]
    repeat' split
    · exact h
    · refine Inv_set_exercises db h _ _ (Nat.le_refl _) ?_ ?_
      · exact h.2.1.2.2.2.sublist ((List.filter_sublist _).map _)
      · exact fun e he => h.1.2.2.2 e (List.mem_of_mem_filter he)

/-- The invariant holds in every observable store: every state reachable by a
sequence of API requests from the empty store satisfies it. -/
theorem Inv_run (ops : List Op) : Inv (run ops) := by
  rw [run]
  have haux : ∀ db, Inv db → Inv (List.foldl step db ops) := by
    induction ops with
    | nil => exact fun db h => h
    | cons o t ih => exact fun db h => ih (step db o) (Inv_step db o h)
  exact haux DB.empty Inv_empty

/-! ## Claim theorems -/

/-- C1: a resource whose ownership chain leads to user `u1` is unreachable for
any other caller `u2`: every read, update and delete route on it answers
exactly 404 with the resource-kind not-found body (never the resource, never
a mutation — the store is returned unchanged — and never a 403), at every
level: Plan, Day, Section, Exercise.  Renames carry a non-blank
name/title, since a blank body is answered 400 before any lookup. -/
theorem cross_user_notFound (db : DB) (u1 u2 : Id) (hne : u2 ≠ u1) (hnd : idsNodup db) :
    (∀ p ∈ db.plans, p.userId = u1 →
      (∀ t, trim t ≠ [] → planPatch db u2 p.id (some t) = (.err 404 msgNotFound, db)) ∧
      planDelete db u2 p.id = (.err 404 msgNotFound, db) ∧
      getPlanDays db u2 p.id = (.err 404 msgPlanNotFound, db)) ∧
    (∀ d ∈ db.days, dayOwnerOf db d = some u1 →
      (∀ t, trim t ≠ [] → dayPatch db u2 d.id (some t) = (.err 404 msgDayNotFound, db)) ∧
      dayDelete db u2 d.id = (.err 404 msgDayNotFound, db) ∧
      getDaySections db u2 d.id = (.err 404 msgDayNotFound, db)) ∧
    (∀ s ∈ db.sections, sectionOwnerOf db s = some u1 →
      getSectionExercises db u2 s.id = (.err 404 msgSectionNotFound, db)) ∧
    (∀ e ∈ db.exercises, exerciseOwnerOf db e = some u1 →
      getExercise db u2 e.id = (.err 404 msgExerciseNotFound, db) ∧
      (∀ pch, exercisePatch db u2 e.id pch = (.err 404 msgExerciseNotFound, db)) ∧
      exerciseDelete db u2 e.id = (.err 404 msgExerciseNotFound, db)) := by
  obtain ⟨hndP, hndD, hndS, hndE⟩ := hnd
  refine ⟨?_, ?_, ?_, ?_⟩
  · intro p hp hu
    have hnone := plans_find_owner_none hndP hne hp rfl hu
    refine ⟨?_, ?_, ?_⟩
    · intro t ht
      simp only [planPatch, if_neg ht, hnone]
    · simp only [planDelete, hnone]
    · have hassert : assertPlanOwned db p.id u2 = false := by
        rw [assertPlanOwned, hnone]; rfl
      simp only [getPlanDays, hassert, Bool.false_eq_true, if_false]
  · intro d hd how
    have hnone := getDayIfOwned_owner_none hndD hne hd rfl how
    refine ⟨?_, ?_, ?_⟩
    · intro t ht
      have hbl : isBlank (some t) = false := by simp [isBlank, ht]
      simp only [dayPatch, hbl, Bool.false_eq_true, if_false, hnone]
    · simp only [dayDelete, hnone]
    · simp only [getDaySections, hnone]
  · intro s hs how
    have hnone := getSectionIfOwned_owner_none hndS hne hs rfl how
    simp only [getSectionExercises, hnone]
  · intro e he how
    have hnone := getExerciseIfOwned_owner_none hndE hne he rfl how
    refine ⟨?_, fun pch => ?_, ?_⟩
    · simp only [getExercise, hnone]
    · simp only [exercisePatch, hnone]
    · simp only [exerciseDelete, hnone]

/-- Witness for C1: in the fixture store (user 10 owns the whole chain),
user 20 requesting the `Squat` exercise gets 404, the store unchanged. -/
theorem cross_user_notFound_witness :
    getExercise fxEx 20 5 = (.err 404 msgExerciseNotFound, fxEx) :=
  (((cross_user_notFound fxEx 10 20 (by decide)
      ⟨by decide, by decide, by decide, by decide⟩).2.2.2
    ⟨5, 3, "Squat".toList, Mode.reps, some 3, some "10".toList, none, none, 1⟩
    (by decide) (by decide)).1)

/-- C7: deleting an owned plan answers 204 and removes the row, so an
immediate second delete of the same id answers 404 and changes nothing;
a delete by anyone other than the owner also answers 404 and changes
nothing — never two successes and never a silent no-op success. -/
theorem plan_delete_twice (db : DB) (u pid : Id)
    (hnd : (db.plans.map Plan.id).Nodup)
    (p : Plan) (hp : p ∈ db.plans) (hid : p.id = pid) (hu : p.userId = u) :
    (planDelete db u pid).1 = .ok 204 () ∧
    (∀ q ∈ (planDelete db u pid).2.plans, q.id ≠ pid) ∧
    planDelete (planDelete db u pid).2 u pid =
      (.err 404 msgNotFound, (planDelete db u pid).2) ∧
    (∀ u2, u2 ≠ u → planDelete db u2 pid = (.err 404 msgNotFound, db)) := by
  have hpred : (fun q => q.id == pid && q.userId == u) p = true := by
    simp [hid, hu]
  cases hf : db.plans.find? (fun q => q.id == pid && q.userId == u) with
  | none =>
    exact absurd hpred (List.find?_eq_none.1 hf p hp)
  | some q =>
    have hfst : (planDelete db u pid).1 = .ok 204 () := by
      simp only [planDelete, hf]
    have hplans : (planDelete db u pid).2.plans =
        db.plans.filter (fun r => !(r.id == pid)) := by
      simp only [planDelete, hf]
    refine ⟨hfst, ?_, ?_, ?_⟩
    · intro r hr
      rw [hplans] at hr
      have := (List.mem_filter.1 hr).2
      simpa using this
    · have hnone2 : (planDelete db u pid).2.plans.find?
          (fun q => q.id == pid && q.userId == u) = none := by
        rw [List.find?_eq_none]
        intro x hx
        rw [hplans] at hx
        have := (List.mem_filter.1 hx).2
        simp only [Bool.not_eq_true', beq_eq_false_iff_ne, ne_eq] at this
        simp [this]
      exact planDelete_not_found hnone2
    · intro u2 hu2
      have hnone : db.plans.find? (fun q => q.id == pid && q.userId == u2) = none := by
        rw [List.find?_eq_none]
        intro x hx
        simp only [Bool.and_eq_true, beq_iff_eq, not_and]
        intro hxid hxu
        have hxp : x = p := mem_eq_of_nodup_map hnd hx hp (by rw [hxid, hid])
        exact hu2 (hxu ▸ hxp ▸ hu ▸ rfl)
      exact planDelete_not_found hnone

/-- Witness for C7: user 10 deletes plan 0 of the fixture twice. -/
theorem plan_delete_twice_witness :
    (planDelete fxEx 10 0).1 = .ok 204 () ∧
    planDelete (planDelete fxEx 10 0).2 10 0 =
      (.err 404 msgNotFound, (planDelete fxEx 10 0).2) :=
  ⟨(plan_delete_twice fxEx 10 0 (by decide)
      ⟨0, 10, "Strength".toList⟩ (by decide) (by decide) (by decide)).1,
   (plan_delete_twice fxEx 10 0 (by decide)
      ⟨0, 10, "Strength".toList⟩ (by decide) (by decide) (by decide)).2.2.1⟩

/-- C2 (amended): the discriminated-union invariant — the mode's field group
populated, the other group null — is established by the create route and
preserved by every mutating operation EXCEPT the permissive exercise partial
update (which the counterexample shows can break it). -/
theorem mode_union_preserved_except_patch (db : DB) (op : Op)
    (hnp : op.isExPatch = false)
    (h : ∀ e ∈ db.exercises, modeConsistent e = true) :
    ∀ e ∈ (step db op).exercises, modeConsistent e = true := by
  cases op with
  | planCreate u t =>
    intro e he
    refine h e ?_
    revert he
    simp only [step, planCreate]
    repeat' split
    all_goals exact id
  | planPatch u pid t =>
    intro e he
    refine h e ?_
    revert he
    simp only [step, planPatch]
    repeat' split
    all_goals exact id
  | planDelete u pid =>
    intro e he
    refine h e ?_
    revert he
    simp only [step, planDelete]
    repeat' split
    · exact id
    · exact List.mem_of_mem_filter
  | dayCreate u pid nm =>
    intro e he
    refine h e ?_
    revert he
    simp only [step, dayCreate]
    repeat' split
    all_goals exact id
  | dayPatch u did nm =>
    intro e he
    refine h e ?_
    revert he
    simp only [step, dayPatch]
    repeat' split
    all_goals exact id
  | dayDelete u did =>
    intro e he
    refine h e ?_
    revert he
    simp only [step, dayDelete]
    repeat' split
    · exact id
    · exact List.mem_of_mem_filter
  | exerciseCreate u sid b =>
    intro e he
    revert he
    simp only [step, exerciseCreate]
    repeat' split
    all_goals intro he
    all_goals
      first
      | exact h e he
      | (rcases List.mem_append.1 he with h1 | h2
         · exact h e h1
         · simp only [List.mem_singleton] at h2
           subst h2
           rfl)
  | exercisePatch u eid b =>
    simp [Op.isExPatch] at hnp
  | exerciseDelete u eid =>
    intro e he
    refine h e ?_
    revert he
    simp only [step, exerciseDelete]
    repeat' split
    · exact id
    · exact List.mem_of_mem_filter

/-- Witness for C2's amended theorem: after creating the time exercise
`plank12` in the fixture store (an operation other than the exercise patch),
the stored `Squat` row still satisfies the union shape. -/
theorem mode_union_preserved_except_patch_witness :
    modeConsistent
      ⟨5, 3, "Squat".toList, Mode.reps, some 3, some "10".toList, none, none, 1⟩ = true :=
  mode_union_preserved_except_patch fxEx (Op.exerciseCreate 10 3 plank12)
    (by decide) (by decide)
    ⟨5, 3, "Squat".toList, Mode.reps, some 3, some "10".toList, none, none, 1⟩
    (by decide)

/-- C4: in every observable store — every state reachable by API requests
from the empty store — every existing Day has exactly three Sections, with
types warmup, workout, stretch and `sectionOrder` 1, 2, 3 in that order: the
composite Day + Sections creation is a single store step (one
`prisma.day.create` call with a nested `sections.create`), so no Day with
fewer than its three Sections is ever observable. -/
theorem every_day_has_three_sections (ops : List Op) :
    ∀ d ∈ (run ops).days,
      (sectionsOf (run ops) d.id).map (fun s => (s.type, s.sectionOrder)) =
        [(SectionType.warmup, 1), (SectionType.workout, 2), (SectionType.stretch, 3)] :=
  (Inv_run ops).2.2

/-- Witness for C4: after creating a plan and a day, the single observable
day (id 1) has exactly its warmup/workout/stretch sections with orders
1, 2, 3. -/
theorem every_day_has_three_sections_witness :
    (sectionsOf
        (run [Op.planCreate 10 (some "Strength".toList), Op.dayCreate 10 0 none])
        (Day.id ⟨1, 0, "Day 1".toList, 1⟩)).map (fun s => (s.type, s.sectionOrder)) =
      [(SectionType.warmup, 1), (SectionType.workout, 2), (SectionType.stretch, 3)] :=
  every_day_has_three_sections
    [Op.planCreate 10 (some "Strength".toList), Op.dayCreate 10 0 none]
    ⟨1, 0, "Day 1".toList, 1⟩ (by decide)

/-- C6 (amended): no exposed operation changes the parent link of a surviving
entity (`Plan.userId`, `Day.planId`, `Section.dayId`, `Exercise.sectionId`) —
EXCEPT that `PATCH /exercises/:exerciseId` forwards its raw body to the store
update, so a body containing the scalar foreign key `sectionId` re-parents
the exercise (see the counterexample).  For every operation whose body does
not contain `sectionId`, every row surviving by id keeps its parent key. -/
theorem parent_links_frame (db : DB) (op : Op)
    (hfr : idsFresh db) (hnd : idsNodup db)
    (hpatch : ∀ u eid pch, op = Op.exercisePatch u eid pch → pch.sectionId = none) :
    parentLinksPreserved db (step db op) := by
  have R := parentLinksPreserved_refl db hnd
  cases op with
  | planCreate u t =>
    simp only [step, planCreate]
    repeat' split
    all_goals
      first
      | exact R
      | exact ⟨pairs_of_append hnd.1 hfr.1
            (by intro x hx; rw [List.mem_singleton] at hx; subst hx; exact Nat.le_refl _),
          pairs_of_sub hnd.2.1 (fun _ h => h),
          pairs_of_sub hnd.2.2.1 (fun _ h => h),
          pairs_of_sub hnd.2.2.2 (fun _ h => h)⟩
  | planPatch u pid t =>
    simp only [step, planPatch]
    repeat' split
    all_goals
      first
      | exact R
      | exact ⟨pairs_of_map hnd.1
            (fun x => by split <;> rfl)
            (fun x => by split <;> rfl),
          pairs_of_sub hnd.2.1 (fun _ h => h),
          pairs_of_sub hnd.2.2.1 (fun _ h => h),
          pairs_of_sub hnd.2.2.2 (fun _ h => h)⟩
  | planDelete u pid =>
    simp only [step, planDelete]
    repeat' split
    all_goals
      first
      | exact R
      | exact ⟨pairs_of_sub hnd.1 (fun _ h => List.mem_of_mem_filter h),
          pairs_of_sub hnd.2.1 (fun _ h => List.mem_of_mem_filter h),
          pairs_of_sub hnd.2.2.1 (fun _ h => List.mem_of_mem_filter h),
          pairs_of_sub hnd.2.2.2 (fun _ h => List.mem_of_mem_filter h)⟩
  | dayCreate u pid nm =>
    simp only [step, dayCreate]
    repeat' split
    all_goals
      first
      | exact R
      | exact ⟨pairs_of_sub hnd.1 (fun _ h => h),
          pairs_of_append hnd.2.1 hfr.2.1
            (by intro x hx; rw [List.mem_singleton] at hx; subst hx; exact Nat.le_refl _),
          pairs_of_append hnd.2.2.1 (fun x hx => (hfr.2.2.1 x hx).1)
            (by intro x hx
                simp only [List.mem_cons, List.not_mem_nil, or_false] at hx
                rcases hx with rfl | rfl | rfl
                · exact Nat.le_add_right _ 1
                · exact Nat.le_add_right _ 2
                · exact Nat.le_add_right _ 3),
          pairs_of_sub hnd.2.2.2 (fun _ h => h)⟩
  | dayPatch u did nm =>
    simp only [step, dayPatch]
    repeat' split
    all_goals
      first
      | exact R
      | exact ⟨pairs_of_sub hnd.1 (fun _ h => h),
          pairs_of_map hnd.2.1
            (fun x => by split <;> rfl)
            (fun x => by split <;> rfl),
          pairs_of_sub hnd.2.2.1 (fun _ h => h),
          pairs_of_sub hnd.2.2.2 (fun _ h => h)⟩
  | dayDelete u did =>
    simp only [step, dayDelete]
    repeat' split
    all_goals
      first
      | exact R
      | exact ⟨pairs_of_sub hnd.1 (fun _ h => h),
          pairs_of_sub hnd.2.1 (fun _ h => List.mem_of_mem_filter h),
          pairs_of_sub hnd.2.2.1 (fun _ h => List.mem_of_mem_filter h),
          pairs_of_sub hnd.2.2.2 (fun _ h => List.mem_of_mem_filter h)⟩
  | exerciseCreate u sid b =>
    simp only [step, exerciseCreate]
    repeat' split
    all_goals
      first
      | exact R
      | exact ⟨pairs_of_sub hnd.1 (fun _ h => h),
          pairs_of_sub hnd.2.1 (fun _ h => h),
          pairs_of_sub hnd.2.2.1 (fun _ h => h),
          pairs_of_append hnd.2.2.2 hfr.2.2.2
            (by intro x hx; rw [List.mem_singleton] at hx; subst hx; exact Nat.le_refl _)⟩
  | exercisePatch u eid b =>
    have hsid : b.sectionId = none := hpatch u eid b rfl
    simp only [step, exercisePatch, hsid]
    repeat' split
    all_goals
      first
      | exact R
      | exact ⟨pairs_of_sub hnd.1 (fun _ h => h),
          pairs_of_sub hnd.2.1 (fun _ h => h),
          pairs_of_sub hnd.2.2.1 (fun _ h => h),
          pairs_of_map hnd.2.2.2
            (fun x => by split <;> rfl)
            (fun x => by
              split
              · simp [applyPatch, hsid]
              · rfl)⟩
  | exerciseDelete u eid =>
    simp only [step, exerciseDelete]
    repeat' split
    all_goals
      first
      | exact R
      | exact ⟨pairs_of_sub hnd.1 (fun _ h => h),
          pairs_of_sub hnd.2.1 (fun _ h => h),
          pairs_of_sub hnd.2.2.1 (fun _ h => h),
          pairs_of_sub hnd.2.2.2 (fun _ h => List.mem_of_mem_filter h)⟩

/-- Witness for C6's amended theorem: renaming the fixture day (an operation
without `sectionId` in its body) leaves the `Squat` exercise's parent section
unchanged. -/
theorem parent_links_frame_witness :
    Exercise.sectionId
      ⟨5, 3, "Squat".toList, Mode.reps, some 3, some "10".toList, none, none, 1⟩ =
    Exercise.sectionId
      ⟨5, 3, "Squat".toList, Mode.reps, some 3, some "10".toList, none, none, 1⟩ :=
  (parent_links_frame fxEx (Op.dayPatch 10 1 (some "Leg day".toList))
      ⟨by decide, by decide, by decide, by decide⟩
      ⟨by decide, by decide, by decide, by decide⟩
      (fun _ _ _ h => Op.noConfusion h)).2.2.2
    ⟨5, 3, "Squat".toList, Mode.reps, some 3, some "10".toList, none, none, 1⟩
    (by decide)
    ⟨5, 3, "Squat".toList, Mode.reps, some 3, some "10".toList, none, none, 1⟩
    (by decide) rfl

/-- C3 (amended): the order assigned at creation is (max existing order among
the CURRENT rows of the parent scope) + 1 — `1` when the scope is empty —
and is strictly greater than every currently existing sibling order, for both
`dayOrder` within a plan and `exerciseOrder` within a section.  Orders are
therefore strictly increasing while no deletion intervenes; they are NOT
never-reused: deleting the maximal sibling lets its value be assigned again
(see the counterexample). -/
theorem order_assignment_max_plus_one (db : DB) (u pid sid : Id) (nm : Option Str)
    (body : ExerciseInput) (hp : assertPlanOwned db pid u = true)
    (hb : (exerciseCreate db u sid body).1.isOk = true) :
    ((dayCreate db u pid nm).2.days.map Day.dayOrder
       = db.days.map Day.dayOrder ++ [maxDayOrder db pid + 1]) ∧
    (∀ d' ∈ db.days, d'.planId = pid → d'.dayOrder < maxDayOrder db pid + 1) ∧
    ((exerciseCreate db u sid body).2.exercises.map Exercise.exerciseOrder
       = db.exercises.map Exercise.exerciseOrder ++ [maxExerciseOrder db sid + 1]) ∧
    (∀ e' ∈ db.exercises, e'.sectionId = sid → e'.exerciseOrder < maxExerciseOrder db sid + 1) := by
  refine ⟨?_, ?_, ?_, ?_⟩
  · simp only [dayCreate, hp, if_true, List.map_append, List.map_cons, List.map_nil]
  · intro d' hd' hpl
    have hmem : d'.dayOrder ∈
        (db.days.filter (fun d => d.planId == pid)).map Day.dayOrder :=
      List.mem_map_of_mem _ (List.mem_filter.2 ⟨hd', by simp [hpl]⟩)
    exact Nat.lt_succ_of_le (le_foldr_max hmem)
  · cases hsec : getSectionIfOwned db sid u with
    | none => simp [exerciseCreate, hsec, Resp.isOk] at hb
    | some sct =>
      by_cases hbl : isBlank body.name = true
      · simp [exerciseCreate, hsec, hbl, Resp.isOk] at hb
      · cases hmode : body.mode with
        | none => simp [exerciseCreate, hsec, hbl, hmode, Resp.isOk] at hb
        | some m =>
          cases m with
          | reps =>
            cases hsets : body.sets with
            | none => simp [exerciseCreate, hsec, hbl, hmode, hsets, Resp.isOk] at hb
            | some k =>
              by_cases hk : k < 1
              · simp [exerciseCreate, hsec, hbl, hmode, hsets, hk, Resp.isOk] at hb
              · by_cases hrb : isBlank body.reps = true
                · simp [exerciseCreate, hsec, hbl, hmode, hsets, hk, hrb, Resp.isOk] at hb
                · simp [exerciseCreate, hsec, hbl, hmode, hsets, hk, hrb]
          | time =>
            cases htv : body.timeValue with
            | none => simp [exerciseCreate, hsec, hbl, hmode, htv, Resp.isOk] at hb
            | some v =>
              by_cases hv : v < 1
              · simp [exerciseCreate, hsec, hbl, hmode, htv, hv, Resp.isOk] at hb
              · cases htu : body.timeUnit with
                | none => simp [exerciseCreate, hsec, hbl, hmode, htv, hv, htu, Resp.isOk] at hb
                | some tu => simp [exerciseCreate, hsec, hbl, hmode, htv, hv, htu]
  · intro e' he' hsid
    have hmem : e'.exerciseOrder ∈
        (db.exercises.filter (fun e => e.sectionId == sid)).map Exercise.exerciseOrder :=
      List.mem_map_of_mem _ (List.mem_filter.2 ⟨he', by simp [hsid]⟩)
    exact Nat.lt_succ_of_le (le_foldr_max hmem)

/-- Witness for C3's amended theorem: a second day under the fixture plan
(whose single day has order 1) receives `dayOrder = maxDayOrder + 1 = 2`. -/
theorem order_assignment_max_plus_one_witness :
    (dayCreate fxDay 10 0 none).2.days.map Day.dayOrder
      = fxDay.days.map Day.dayOrder ++ [maxDayOrder fxDay 0 + 1] :=
  (order_assignment_max_plus_one fxDay 10 0 3 none squatInput
    (by decide) (by decide)).1

/-- C8: when day creation is given no name, an empty name or a
whitespace-only name, the stored name is `"Day " ++ assigned order`; a
non-blank name is stored trimmed. -/
theorem day_default_name (db : DB) (u pid : Id) (hp : assertPlanOwned db pid u = true) :
    ((dayCreate db u pid none).2.days.map Day.name
       = db.days.map Day.name ++ [dayLabel (maxDayOrder db pid + 1)]) ∧
    (∀ s, trim s = [] →
       (dayCreate db u pid (some s)).2.days.map Day.name
         = db.days.map Day.name ++ [dayLabel (maxDayOrder db pid + 1)]) ∧
    (∀ s, trim s ≠ [] →
       (dayCreate db u pid (some s)).2.days.map Day.name
         = db.days.map Day.name ++ [trim s]) := by
  refine ⟨?_, ?_, ?_⟩
  · simp only [dayCreate, hp, if_true, List.map_append, List.map_cons, List.map_nil,
      trim_dayLabel]
  · intro s hs
    simp only [dayCreate, hp, if_true, hs, if_true, List.map_append, List.map_cons,
      List.map_nil, trim_dayLabel]
  · intro s hs
    simp only [dayCreate, hp, if_true, List.map_append, List.map_cons, List.map_nil]
    simp [hs, trim_idem]

/-- Witness for C8: the first day under the fresh fixture plan is stored with
the default name, which renders as `Day 1`. -/
theorem day_default_name_witness :
    (dayCreate fxPlan 10 0 none).2.days.map Day.name
        = fxPlan.days.map Day.name ++ [dayLabel (maxDayOrder fxPlan 0 + 1)] ∧
    dayLabel (maxDayOrder fxPlan 0 + 1) = "Day 1".toList :=
  ⟨(day_default_name fxPlan 10 0 (by decide)).1, by decide⟩

/-- C10: `requireAuth` takes the second whitespace-separated component of the
Authorization header as the token without ever checking that the scheme is
the literal `Bearer`: any header `scheme ++ " " ++ validToken` authenticates
as the token's user, while a bare valid token without a space, or a missing
header, is rejected with 401 `No token` before any resource lookup. -/
theorem requireAuth_scheme_ignored (verify : Str → Option Id) (scheme tok : Str) (uid : Id)
    (hs : ' ' ∉ scheme) (ht : ' ' ∉ tok) (htn : tok ≠ []) (hv : verify tok = some uid) :
    requireAuth verify (some (scheme ++ ' ' :: tok)) = .granted uid ∧
    requireAuth verify (some tok) = .denied "No token".toList ∧
    requireAuth verify none = .denied "No token".toList := by
  refine ⟨?_, ?_, rfl⟩
  · rw [requireAuth, splitOnSpace_append hs, splitOnSpace_no_space ht]
    simp [htn, hv]
  · rw [requireAuth, splitOnSpace_no_space ht]
    rfl

/-- Witness for C10 at a concrete verifier accepting the token `tok123` as
user 7, with scheme `Basic`. -/
theorem requireAuth_scheme_ignored_witness :
    requireAuth (fun t => if t = "tok123".toList then some 7 else none)
        (some ("Basic".toList ++ ' ' :: "tok123".toList)) = .granted 7 ∧
    requireAuth (fun t => if t = "tok123".toList then some 7 else none)
        (some "tok123".toList) = .denied "No token".toList ∧
    requireAuth (fun t => if t = "tok123".toList then some 7 else none)
        none = .denied "No token".toList :=
  requireAuth_scheme_ignored (fun t => if t = "tok123".toList then some 7 else none)
    "Basic".toList "tok123".toList 7 (by decide) (by decide) (by decide) (by decide)

/-- C5: the server-side exercise create route does NOT enforce the per-unit
time range: the body with `timeUnit = hour`, `timeValue = 13` is accepted
(201) and stored, even though the client-side `validateTime` rejects 13 hours
(and accepts 12).  The range rule exists only in the mobile client. -/
theorem hour13_accepted_by_server :
    (exerciseCreate fxDay 10 3 plank13).1.isOk = true ∧
    (exerciseCreate fxDay 10 3 plank13).2.exercises.map
        (fun e => (e.timeValue, e.timeUnit)) = [(some 13, some TimeUnit.hour)] ∧
    validateTime 13 TimeUnit.hour = some "Hours must be at most 12".toList ∧
    validateTime 12 TimeUnit.hour = none ∧
    (exerciseCreate fxDay 10 3 plank12).1.isOk = true := by
  decide

/-- C9: order assignment and insertion are two separate store interactions,
so two concurrent creations against the same (empty) workout section may both
read the maximum before either inserts: both compute `nextOrder = 1` and the
section ends up with duplicate `exerciseOrder` values.  The first conjunct
checks that a sequential create is exactly read-then-insert, tying
`insertExerciseRow` to the route. -/
theorem concurrent_order_collision :
    (exerciseCreate fxDay 10 3 squatInput).2 =
      insertExerciseRow fxDay 3 "Squat".toList Mode.reps (some 3) (some "10".toList)
        none none (maxExerciseOrder fxDay 3 + 1) ∧
    ((insertExerciseRow
        (insertExerciseRow fxDay 3 "A".toList Mode.reps (some 3) (some "8".toList)
          none none (maxExerciseOrder fxDay 3 + 1))
        3 "B".toList Mode.reps (some 3) (some "8".toList)
        none none (maxExerciseOrder fxDay 3 + 1)).exercises.map Exercise.exerciseOrder
      = [1, 1] ∧
     ¬ ((insertExerciseRow
        (insertExerciseRow fxDay 3 "A".toList Mode.reps (some 3) (some "8".toList)
          none none (maxExerciseOrder fxDay 3 + 1))
        3 "B".toList Mode.reps (some 3) (some "8".toList)
        none none (maxExerciseOrder fxDay 3 + 1)).exercises.map Exercise.exerciseOrder).Nodup) := by
  decide

/-- C3 counterexample: create day A under a fresh plan (dayOrder 1), delete A,
create day B — the code recomputes max over the now-empty table and B gets
`dayOrder = 1`, not 2: order values ARE reused after deletion. -/
theorem dayOrder_reused_after_delete :
    fxReuse.days.map Day.dayOrder = [1] ∧
    fxReuse.days.map Day.dayOrder ≠ [2] := by
  decide

/-- C2 counterexample: `Squat` is a reps exercise (sets 3, reps populated,
time fields null); patching it with only `timeValue`/`timeUnit` succeeds and
leaves BOTH field groups populated — the discriminated-union invariant is not
preserved by `PATCH /exercises/:exerciseId`. -/
theorem exercise_patch_breaks_union :
    fxEx.exercises.map modeConsistent = [true] ∧
    (exercisePatch fxEx 10 5 unionBreakPatch).1.isOk = true ∧
    (exercisePatch fxEx 10 5 unionBreakPatch).2.exercises.map
        (fun e => (e.sets, e.reps, e.timeValue, e.timeUnit)) =
      [(some 3, some "10".toList, some 5, some TimeUnit.min)] ∧
    (exercisePatch fxEx 10 5 unionBreakPatch).2.exercises.map modeConsistent = [false] := by
  decide

/-- C6 counterexample: `PATCH /exercises/:exerciseId` forwards the body to the
store update unfiltered, so a body containing `sectionId` re-parents the
exercise: `Squat` moves from the workout section (3) to the warmup section
(2). -/
theorem exercise_patch_reparents :
    fxEx.exercises.map Exercise.sectionId = [3] ∧
    (exercisePatch fxEx 10 5 reparentPatch).1.isOk = true ∧
    (exercisePatch fxEx 10 5 reparentPatch).2.exercises.map Exercise.sectionId = [2] := by
  decide

end WorkoutApp
